import Mathlib

/-!
# Verification of `buildstream/_messenger.py`

A shallow embedding of the message-routing, activity-timing and per-job
logging subsystem (`_MessageHandler` and `Messenger`) of BuildStream,
together with proofs of the specified properties.

Time is modelled abstractly: a timestamp is an `Int`, and the render
interval of one second is the constant `RENDER_INTERVAL`.  Elapsed
durations carried by messages are `Int` numbers of (whole) seconds, as
produced by `int(elapsed.total_seconds())` in the source.
-/

namespace Messenger

/-- Message kinds.  Modelled from the spec: `_message.py` (the `MessageType`
enum) is not part of the sources; the spec lists the recognized kinds as
START, SUCCESS, FAIL, LOG, WARN, ERROR, INFO, with SUCCESS/FAIL the only
kinds carrying elapsed time. -/
inductive MessageType where
  | start
  | success
  | fail
  | log
  | warn
  | error
  | info
deriving DecidableEq, Repr

/-- Modelled from the spec: the printable (lower-case) value of each message
kind, on which the source calls `.upper()` when formatting a log line. -/
def MessageType.value : MessageType → String
  | .start => "start"
  | .success => "success"
  | .fail => "fail"
  | .log => "log"
  | .warn => "warn"
  | .error => "error"
  | .info => "info"

/-- The `Message` record (`_message.Message`): kind, text, optional detail,
optional elapsed duration (whole seconds) and optional owning element name. -/
structure Message where
  message_type : MessageType
  message : String
  detail : Option String := none
  elapsed : Option Int := none
  element_name : Option String := none
deriving DecidableEq, Repr

/-- Python truthiness of an `Optional[str]`: `None` and `""` are falsy. -/
def strTruthy : Option String → Bool
  | none => false
  | some s => s ≠ ""

/-- Python `str.upper` restricted to the ASCII strings used by kind values. -/
def pyUpper (s : String) : String :=
  String.mk (s.toList.map Char.toUpper)

/-- Python `"{:02d}".format n`: zero-pad the decimal rendering to width 2. -/
def fmt02 (n : Int) : String :=
  let s := toString n
  if s.length < 2 then "0" ++ s else s

/-- The timecode `HH:MM:SS` computed by `_record_message` from the whole
number of elapsed seconds, via `divmod(secs, 60 ** 2)` and `divmod(rem, 60)`
(Python floor division, i.e. Euclidean division for these positive divisors). -/
def timecodeOf (secs : Int) : String :=
  let hours := secs.ediv 3600
  let remainder := secs.emod 3600
  let minutes := remainder.ediv 60
  let seconds := remainder.emod 60
  fmt02 hours ++ ":" ++ fmt02 minutes ++ ":" ++ fmt02 seconds

/-- Python `"{: <w}".format s`: left-justify `s` in a field of width `w`. -/
def padJust (s : String) (w : Nat) : String :=
  s ++ String.mk (List.replicate (w - s.length) ' ')

/-- Python `s.rstrip "\n"`: remove every trailing newline character. -/
def rstripNL (s : String) : String :=
  String.mk ((s.toList.reverse.dropWhile (· = '\n')).reverse)

/-- Helper for `splitlinesKeepends`: accumulates the current line (reversed). -/
def splitlinesAux : List Char → List Char → List String
  | [], acc => if acc = [] then [] else [String.mk acc.reverse]
  | '\n' :: rest, acc => String.mk (acc.reverse ++ ['\n']) :: splitlinesAux rest []
  | c :: rest, acc => splitlinesAux rest (c :: acc)

/-- Python `s.splitlines True` with `'\n'` as the line terminator (the model's
only line terminator): split into lines, each keeping its terminator. -/
def splitlinesKeepends (s : String) : List String :=
  splitlinesAux s.toList []

/-- Python `sep.join xs`. -/
def joinStr (sep : String) : List String → String
  | [] => ""
  | [x] => x
  | x :: y :: xs => x ++ sep ++ joinStr sep (y :: xs)

/-- The indentation unit `INDENT` of `_record_message`. -/
def INDENT : String := "    "

/-- The placeholder timecode `EMPTYTIME` of `_record_message`. -/
def EMPTYTIME : String := "--:--:--"

/-- The detail block as `_record_message` renders it:
`INDENT + INDENT.join(detail.rstrip("\n").splitlines(True))`. -/
def detailBlock (d : String) : String :=
  INDENT ++ joinStr INDENT (splitlinesKeepends (rstripNL d))

/-- The text `_record_message` writes (before the trailing newline appended by
`write`), shallow-embedded from the source: the template
`"[{timecode: <8}] {type: <7}"` is extended by `" {element_name}"` when the
element name is truthy and by `"\n\n{detail}"` when a detail is present, and
the timecode is `EMPTYTIME` except for SUCCESS/FAIL, which format their
elapsed duration.  Returns `none` when the source would crash, i.e. a
SUCCESS/FAIL message carrying no elapsed duration. -/
def recordLine (m : Message) : Option String :=
  let hasElem := strTruthy m.element_name
  let element_name := if hasElem then m.element_name.getD "" else ""
  let timecode? : Option String :=
    if m.message_type = .success ∨ m.message_type = .fail then
      m.elapsed.map timecodeOf
    else
      some EMPTYTIME
  timecode?.map fun timecode =>
    "[" ++ padJust timecode 8 ++ "] " ++ padJust (pyUpper m.message_type.value) 7
      ++ (if hasElem then " " ++ element_name else "")
      ++ ": " ++ m.message
      ++ (match m.detail with
          | none => ""
          | some d => "\n\n" ++ detailBlock d)

/-! ## The message handler state and the job-recording scope -/

/-- The per-thread `_MessageHandler` state: an optional open log handle
(abstracted to an identifier), the optional log filename, and the silence
scope depth (`_silence_scope_depth`, a Python `int`). -/
structure Handler where
  log_handle : Option Nat
  log_filename : Option String
  silence_scope_depth : Int
deriving DecidableEq, Repr

/-- Source `_MessageHandler._silent_messages`: whether messages are currently being
silenced, i.e. the silence scope depth is positive. -/
def silentMessages (h : Handler) : Bool :=
  h.silence_scope_depth > 0

/-- Python `os.path.join(logdir, filename)` for the simple relative-path case used
by `recorded_messages`. -/
def pathJoin (dir base : String) : String :=
  dir ++ "/" ++ base

/-- The entry of `_MessageHandler.recorded_messages` up to the `yield`:
assert that no job context is active (`log_handle is None` and
`log_filename is None`, otherwise the `assert` aborts, modelled as `none`);
set `log_filename` to `logdir/filename.pid.log`; reset the silence scope
depth to `0`; open the log file for append and store the handle. -/
def recordedMessagesBegin (h : Handler) (filename logdir : String) (pid : Nat) :
    Option Handler :=
  match h.log_handle, h.log_filename with
  | none, none =>
      let fullname := pathJoin logdir (filename ++ "." ++ toString pid ++ ".log")
      some { log_handle := some 0
             log_filename := some fullname
             silence_scope_depth := 0 }
  | _, _ => none

/-- One whole execution of the `recorded_messages` scope, shallow-embedded
from the source.  `bodyRaises` says whether the body of the `with` block
raises.  Returns `none` on the entry assertion failure, and otherwise the
final handler state together with `(fileClosed, raised)`: the `with open`
statement closes the file on both exit paths, while the two assignments
`self.log_handle = None` and `self.log_filename = None` stand after the
`yield` and run only when the body completes normally. -/
def recordedMessagesScope (h : Handler) (filename logdir : String) (pid : Nat)
    (bodyRaises : Bool) : Option (Handler × Bool × Bool) :=
  match recordedMessagesBegin h filename logdir pid with
  | none => none
  | some h1 =>
      if bodyRaises then
        some (h1, true, true)
      else
        some ({ h1 with log_handle := none, log_filename := none }, true, false)

/-! ## The silencing scope -/

/-- The increment performed on entry of `_MessageHandler.silence`. -/
def silenceEnter (d : Int) : Int := d + 1

/-- The exit of `_MessageHandler.silence`: `assert` that the depth is
positive (`none` models the fatal assertion failure), then decrement. -/
def silenceExit (d : Int) : Option Int :=
  if 0 < d then some (d - 1) else none

/-- A raw sequence of silencing operations, as the handler sees them.
`enter actually` is `Messenger.silence(actually_silence=actually)` entering
(it touches the depth only when `actually` is true), `exit actually` the
corresponding scope exit. -/
inductive SilenceOp where
  | enter (actually : Bool)
  | exit (actually : Bool)
deriving DecidableEq, Repr

/-- Run a list of raw silencing operations on a depth; `none` as soon as an
exit trips the assertion. -/
def runSilenceOps : List SilenceOp → Int → Option Int
  | [], d => some d
  | SilenceOp.enter actually :: ops, d =>
      runSilenceOps ops (if actually then silenceEnter d else d)
  | SilenceOp.exit actually :: ops, d =>
      if actually then
        match silenceExit d with
        | none => none
        | some d1 => runSilenceOps ops d1
      else
        runSilenceOps ops d

/-- Balanced programs of silencing scopes, as produced by the `with
self.silence(...)` context managers of the source: a body either completes
or raises, and scopes nest.  This is the shape every actual use has, since
the scope exit sits in a `finally`. -/
inductive SProg where
  | skip
  | fail
  | seq (p q : SProg)
  | scope (actually : Bool) (body : SProg)
deriving DecidableEq, Repr

/-- Execute a balanced silencing program on a depth.  Returns the final
depth and whether an exception is propagating; `none` models the fatal
assertion failure on an unbalanced exit.  A scope's exit runs in a
`finally`, hence also when the body raises, and re-raises afterwards. -/
def execSProg : SProg → Int → Option (Int × Bool)
  | .skip, d => some (d, false)
  | .fail, d => some (d, true)
  | .seq p q, d =>
      match execSProg p d with
      | none => none
      | some (d1, true) => some (d1, true)
      | some (d1, false) => execSProg q d1
  | .scope actually body, d =>
      if actually then
        match execSProg body (silenceEnter d) with
        | none => none
        | some (d1, raised) =>
            match silenceExit d1 with
            | none => none
            | some d2 => some (d2, raised)
      else
        execSProg body d

/-! ## Message forwarding -/

/-- Modelled from the spec: the fixed set of unconditional message kinds
(`_message.unconditional_messages`, not part of the sources).  The spec
requires at least FAIL: "a small fixed subset (at least FAIL) is
unconditional and bypasses silencing". -/
def unconditionalMessages : List MessageType := [.fail]

/-- Modelled from the spec: whether the upstream handler forwards a record
it receives with the given `is_silenced` flag.  "A record is suppressed when
silencing is active AND the record's kind is not in a small fixed set of
unconditional kinds." -/
def forwardedUpstream (m : Message) (is_silenced : Bool) : Bool :=
  !is_silenced || unconditionalMessages.contains m.message_type

/-- Source `_MessageHandler.message` composed with the upstream handler:
the source always invokes the callback, passing
`is_silenced = self._silent_messages()`; whether the record then reaches the
upstream display is `forwardedUpstream` (modelled from the spec). -/
def messageReachesUpstream (h : Handler) (m : Message) : Bool :=
  forwardedUpstream m (silentMessages h)

/-! ## Exceptions and the timed activity scope -/

/-- Python exceptions relevant to the subsystem: recognized domain errors
(`BstError`) and any other exception, each carrying an identifying payload
so that "propagates unmodified" is expressible. -/
inductive PyErr where
  | bst (code : Nat)
  | other (code : Nat)
deriving DecidableEq, Repr

/-- The outcome of running a protected body: normal completion or a raised
exception. -/
inductive Outcome where
  | ok
  | err (e : PyErr)
deriving DecidableEq, Repr

/-- Source `Messenger.timed_activity`, shallow-embedded from the source as a
function of the body's outcome.  `tStart` is the reference instant of the
suspend-aware clock (`timedata.start_time`, already adjusted for any
suspensions) and `tEnd` the instant `datetime.datetime.now()` reads when the
terminal record is built.  Returns the records this scope emits, in order,
and the outcome propagated to the caller.  The nested silencing scope
(active iff `silent_nested`) wraps only the body and is restored on exit, so
it does not affect this scope's own emissions. -/
def timedActivityRun (activity : String) (element : Option String)
    (detail : Option String) (silent_nested : Bool) (tStart tEnd : Int)
    (body : Outcome) : List Message × Outcome :=
  let startMsg : Message :=
    { message_type := .start, message := activity, detail := detail
      element_name := element }
  match body with
  | .ok =>
      ([startMsg,
        { message_type := .success, message := activity
          elapsed := some (tEnd - tStart), element_name := element }], .ok)
  | .err (.bst c) =>
      ([startMsg,
        { message_type := .fail, message := activity
          elapsed := some (tEnd - tStart), element_name := element }],
       .err (.bst c))
  | .err (.other c) =>
      ([startMsg], .err (.other c))

/-! ## The suspend-aware clock -/

/-- The `_TimeData` object yielded by `timed_suspendable`. -/
structure TimeData where
  start_time : Int
deriving DecidableEq, Repr

/-- The `resume_time` hook of `timed_suspendable`:
`timedata.start_time += now - stopped_time`. -/
def resumeShift (td : TimeData) (stoppedAt resumedAt : Int) : TimeData :=
  { start_time := td.start_time + (resumedAt - stoppedAt) }

/-- Apply a sequence of pause/resume cycles, each given as
`(stop instant, resume instant)`, to the time data. -/
def applySuspends : TimeData → List (Int × Int) → TimeData
  | td, [] => td
  | td, (p, r) :: rest => applySuspends (resumeShift td p r) rest

/-- The elapsed reading `datetime.datetime.now() - timedata.start_time`
taken at instant `now`. -/
def elapsedAt (td : TimeData) (now : Int) : Int :=
  now - td.start_time

/-! ## Tasks and render throttling -/

/-- Constant `_RENDER_INTERVAL`: one second, in the model's time unit. -/
def RENDER_INTERVAL : Int := 1

/-- The render-throttling state of the `Messenger`:
`_active_simple_tasks` and `_next_render`. -/
structure RenderState where
  active_simple_tasks : Int
  next_render : Option Int
deriving DecidableEq, Repr

/-- The `Messenger` state at construction. -/
def initialRenderState : RenderState :=
  { active_simple_tasks := 0, next_render := none }

/-- The task-registration bookkeeping of `simple_task` entry, at instant
`now`: increment `_active_simple_tasks` and, when `_next_render` is unset,
schedule it for `now + _RENDER_INTERVAL`. -/
def taskEnter (st : RenderState) (now : Int) : RenderState :=
  let st1 := { st with active_simple_tasks := st.active_simple_tasks + 1 }
  match st1.next_render with
  | none => { st1 with next_render := some (now + RENDER_INTERVAL) }
  | some _ => st1

/-- The `finally` bookkeeping of `simple_task` exit: decrement
`_active_simple_tasks` and clear `_next_render` when it reaches zero. -/
def taskExit (st : RenderState) : RenderState :=
  let a := st.active_simple_tasks - 1
  { active_simple_tasks := a
    next_render := if a = 0 then none else st.next_render }

/-- Source `Messenger._render_status` at instant `now`, with `cbPresent` saying
whether a render callback is configured: `assert self._next_render` (`none`
models the fatal assertion failure); invoke the callback only when it is
present and `now` has reached the deadline, rescheduling the deadline to
`now + _RENDER_INTERVAL` after a render.  Returns the new state and whether
the callback was invoked. -/
def renderStatus (st : RenderState) (cbPresent : Bool) (now : Int) :
    Option (RenderState × Bool) :=
  match st.next_render with
  | none => none
  | some deadline =>
      if cbPresent ∧ deadline ≤ now then
        some ({ st with next_render := some (now + RENDER_INTERVAL) }, true)
      else
        some (st, false)

/-- Balanced programs over the render-throttling state, as the source
produces them: `simple_task` scopes nest (entry and the `finally` exit
always pair), and progress updates call the render hook. -/
inductive TProg where
  | leaf
  | render (cbPresent : Bool) (now : Int)
  | seq (p q : TProg)
  | task (now : Int) (body : TProg)
deriving DecidableEq, Repr

/-- Execute a balanced task program; `none` models the fatal assertion
failure in `_render_status`. -/
def execTProg : TProg → RenderState → Option RenderState
  | .leaf, st => some st
  | .render cb now, st =>
      match renderStatus st cb now with
      | none => none
      | some (st1, _) => some st1
  | .seq p q, st =>
      match execTProg p st with
      | none => none
      | some st1 => execTProg q st1
  | .task now body, st =>
      match execTProg body (taskEnter st now) with
      | none => none
      | some st1 => some (taskExit st1)

/-! ## The simple task scope -/

/-- The progress counters of a `_Task` as they stand when the `simple_task`
scope finishes (`current_progress` and `maximum_progress`). -/
structure TaskInfo where
  current_progress : Option Int
  maximum_progress : Option Int
deriving DecidableEq, Repr

/-- Source `Messenger.simple_task`, shallow-embedded from the source.  `hasState`
says whether a task registry (`State`) is configured.  Without one, the
source delegates to `timed_activity` with the same activity name, element
name and `silent_nested` flag, and yields `None`.  With one, it emits START,
registers the task (a `TaskInfo` whose final progress counters are the
`task` argument), performs the render-deadline bookkeeping on `st` (entry at
instant `tSched`), runs the body, always unregisters in a `finally`, and on
success emits SUCCESS with a progress-summary detail when progress was
reported and the elapsed time exceeds `displayLimit` (`_DISPLAY_LIMIT`).
Returns (records emitted, outcome, yielded task handle, final render
state). -/
def simpleTaskRun (hasState : Bool) (activity : String)
    (element full_name : Option String) (silent_nested : Bool)
    (displayLimit : Int) (tStart tEnd : Int) (task : TaskInfo)
    (body : Outcome) (st : RenderState) (tSched : Int) :
    List Message × Outcome × Option TaskInfo × RenderState :=
  if hasState = false then
    let r := timedActivityRun activity element none silent_nested tStart tEnd body
    (r.1, r.2, none, st)
  else
    -- `if not full_name: full_name = activity` (unused further in the model)
    let _full := match full_name with
      | none => activity
      | some s => if s = "" then activity else s
    let startMsg : Message :=
      { message_type := .start, message := activity, element_name := element }
    let st1 := taskEnter st tSched
    let elapsed := tEnd - tStart
    match body with
    | .ok =>
        let st2 := taskExit st1
        let detail : Option String :=
          match task.current_progress with
          | none => none
          | some c =>
              if displayLimit < elapsed then
                some (match task.maximum_progress with
                      | some m =>
                          toString c ++ " of " ++ toString m
                            ++ " subtasks processed"
                      | none => toString c ++ " subtasks processed")
              else none
        ([startMsg,
          { message_type := .success, message := activity, detail := detail
            elapsed := some elapsed, element_name := element }],
         .ok, some task, st2)
    | .err (.bst c) =>
        ([startMsg,
          { message_type := .fail, message := activity
            elapsed := some elapsed, element_name := element }],
         .err (.bst c), some task, taskExit st1)
    | .err (.other c) =>
        ([startMsg], .err (.other c), some task, taskExit st1)

/-! ## Helper lemmas -/

/-- Balanced silencing programs restore the depth on every exit path,
raising bodies included. -/
theorem execSProg_preserves_depth :
    ∀ (p : SProg) (d : Int) (res : Int × Bool),
      execSProg p d = some res → res.1 = d := by
  intro p
  induction p with
  | skip =>
      intro d res h
      simp [execSProg] at h
      simp [← h]
  | fail =>
      intro d res h
      simp [execSProg] at h
      simp [← h]
  | seq p q ihp ihq =>
      intro d res h
      simp only [execSProg] at h
      cases hp : execSProg p d with
      | none => simp [hp] at h
      | some r1 =>
          rw [hp] at h
          obtain ⟨d1, raised⟩ := r1
          cases raised with
          | true =>
              simp at h
              have := ihp d (d1, true) hp
              simp [← h, this]
          | false =>
              simp at h
              have h1 := ihp d (d1, false) hp
              have h2 := ihq d1 res h
              simp at h1
              omega
  | scope actually body ih =>
      intro d res h
      cases actually with
      | false =>
          simp [execSProg] at h
          exact ih d res h
      | true =>
          simp only [execSProg, if_pos] at h
          cases hb : execSProg body (silenceEnter d) with
          | none => simp [hb] at h
          | some r1 =>
              rw [hb] at h
              obtain ⟨d1, raised⟩ := r1
              have hd1 := ih (silenceEnter d) (d1, raised) hb
              simp only [silenceExit] at h
              by_cases hpos : (0 : Int) < d1
              · simp [hpos] at h
                rw [← h]
                simp [silenceEnter] at hd1
                simp
                omega
              · simp [hpos] at h

/-- A run of raw silencing operations that starts non-negative and does not
trip the exit assertion stays non-negative. -/
theorem runSilenceOps_nonneg :
    ∀ (ops : List SilenceOp) (d : Int), 0 ≤ d →
      ∀ d', runSilenceOps ops d = some d' → 0 ≤ d' := by
  intro ops
  induction ops with
  | nil =>
      intro d hd d' h
      simp [runSilenceOps] at h
      omega
  | cons op rest ih =>
      intro d hd d' h
      cases op with
      | enter actually =>
          simp only [runSilenceOps] at h
          cases actually with
          | true =>
              refine ih (silenceEnter d) (by simp [silenceEnter]; omega) d' ?_
              simpa using h
          | false =>
              refine ih d hd d' ?_
              simpa using h
      | exit actually =>
          simp only [runSilenceOps] at h
          cases actually with
          | true =>
              simp only [silenceExit] at h
              by_cases hpos : (0 : Int) < d
              · simp [hpos] at h
                exact ih (d - 1) (by omega) d' h
              · simp [hpos] at h
          | false =>
              refine ih d hd d' ?_
              simpa using h

/-- The reference instant after a sequence of pause/resume cycles is the
original instant shifted by the total paused interval. -/
theorem applySuspends_start_time :
    ∀ (ps : List (Int × Int)) (td : TimeData),
      (applySuspends td ps).start_time
        = td.start_time + (ps.map (fun pr => pr.2 - pr.1)).sum := by
  intro ps
  induction ps with
  | nil =>
      intro td
      simp [applySuspends]
  | cons pr rest ih =>
      intro td
      obtain ⟨p, r⟩ := pr
      simp only [applySuspends, List.map_cons, List.sum_cons]
      rw [ih]
      simp [resumeShift]
      ring

/-- The render-state invariant preserved by balanced task programs: the
active-task count is restored on exit, a state with no active task and no
pending deadline yields a state whose deadline is cleared whenever its own
count returns to zero, and a pending deadline never vanishes while tasks
remain active. -/
theorem execTProg_invariant :
    ∀ (p : TProg) (st : RenderState), 0 ≤ st.active_simple_tasks →
      (st.active_simple_tasks = 0 → st.next_render = none) →
      ∀ st', execTProg p st = some st' →
        st'.active_simple_tasks = st.active_simple_tasks
          ∧ (st.active_simple_tasks = 0 → st'.next_render = none)
          ∧ (st.next_render ≠ none → st'.next_render ≠ none) := by
  intro p
  induction p with
  | leaf =>
      intro st hnn hz st' h
      simp [execTProg] at h
      subst h
      exact ⟨rfl, hz, fun hnr => hnr⟩
  | render cb now =>
      intro st hnn hz st' h
      simp only [execTProg] at h
      cases hnr : st.next_render with
      | none => simp [renderStatus, hnr] at h
      | some deadline =>
          simp only [renderStatus, hnr] at h
          by_cases hc : cb = true ∧ deadline ≤ now
          · simp only [if_pos hc] at h
            simp at h
            refine ⟨by simp [← h], ?_, ?_⟩
            · intro h0
              exact absurd hnr (by simp [hz h0])
            · intro _
              simp [← h]
          · simp only [if_neg hc] at h
            simp at h
            refine ⟨by simp [← h], ?_, ?_⟩
            · intro h0
              exact absurd hnr (by simp [hz h0])
            · intro _
              simp [← h, hnr]
  | seq p q ihp ihq =>
      intro st hnn hz st' h
      simp only [execTProg] at h
      cases hp : execTProg p st with
      | none => simp [hp] at h
      | some st1 =>
          rw [hp] at h
          simp at h
          obtain ⟨ha, hb, hc⟩ := ihp st hnn hz st1 hp
          have hz1 : st1.active_simple_tasks = 0 → st1.next_render = none := by
            intro h0
            exact hb (by omega)
          obtain ⟨ha', hb', hc'⟩ := ihq st1 (by omega) hz1 st' h
          refine ⟨by omega, ?_, fun hnr => hc' (hc hnr)⟩
          intro h0
          exact hb' (by omega)
  | task now body ih =>
      intro st hnn hz st' h
      simp only [execTProg] at h
      cases hb : execTProg body (taskEnter st now) with
      | none => simp [hb] at h
      | some st1 =>
          rw [hb] at h
          simp at h
          have hent_active :
              (taskEnter st now).active_simple_tasks
                = st.active_simple_tasks + 1 := by
            simp only [taskEnter]
            cases st.next_render <;> simp
          have hent_nr : (taskEnter st now).next_render ≠ none := by
            simp only [taskEnter]
            cases st.next_render <;> simp
          have hz1 : (taskEnter st now).active_simple_tasks = 0 →
              (taskEnter st now).next_render = none := by
            intro h0
            rw [hent_active] at h0
            omega
          obtain ⟨ha, _, hc⟩ :=
            ih (taskEnter st now) (by rw [hent_active]; omega) hz1 st1 hb
          have hst1 : st1.active_simple_tasks = st.active_simple_tasks + 1 := by
            omega
          refine ⟨?_, ?_, ?_⟩
          · simp [← h, taskExit, hst1]
          · intro h0
            simp [← h, taskExit, hst1, h0]
          · intro hnr
            have hane : st.active_simple_tasks ≠ 0 := fun h0 => hnr (hz h0)
            have : st1.active_simple_tasks - 1 ≠ 0 := by omega
            simp only [← h, taskExit, if_neg this]
            exact hc hent_nr

/-! ## Claim theorems -/

/-- C3: every record of kind FAIL passed to `message()` reaches the
upstream handler even when silencing is active (the handler is invoked with
`is_silenced = _silent_messages()` and FAIL is an unconditional kind), and a
record fails to reach upstream only when silencing is active and its kind
lies outside the fixed unconditional set. -/
theorem fail_reaches_upstream :
    (∀ (h : Handler) (m : Message), m.message_type = .fail →
        messageReachesUpstream h m = true)
    ∧ (∀ (h : Handler) (m : Message), messageReachesUpstream h m = false →
        silentMessages h = true ∧ m.message_type ∉ unconditionalMessages) := by
  constructor
  · intro h m hm
    simp [messageReachesUpstream, forwardedUpstream, hm, unconditionalMessages]
  · intro h m hm
    simp only [messageReachesUpstream, forwardedUpstream, Bool.or_eq_false_iff,
      Bool.not_eq_false'] at hm
    refine ⟨hm.1, ?_⟩
    intro hmem
    have hc := hm.2
    simp only [unconditionalMessages, List.mem_singleton] at hmem
    rw [hmem] at hc
    exact absurd hc (by decide)

/-- Witness for C3: a FAIL record reaches upstream through a handler whose
silence depth is 5. -/
theorem fail_reaches_upstream_witness :
    messageReachesUpstream ⟨none, none, 5⟩
      { message_type := .fail, message := "failed" } = true :=
  fail_reaches_upstream.1 ⟨none, none, 5⟩
    { message_type := .fail, message := "failed" } rfl

/-- C4: balanced silencing scopes restore the depth to its pre-entry value
on every exit path (raising bodies included), runs of silencing operations
starting non-negative keep the depth non-negative, and an exit with no
matching prior enter trips the fatal assertion. -/
theorem silence_depth_balanced :
    (∀ (p : SProg) (d : Int) (res : Int × Bool),
        execSProg p d = some res → res.1 = d)
    ∧ (∀ (ops : List SilenceOp) (d : Int), 0 ≤ d →
        ∀ d', runSilenceOps ops d = some d' → 0 ≤ d')
    ∧ runSilenceOps [SilenceOp.exit true] 0 = none := by
  refine ⟨execSProg_preserves_depth, runSilenceOps_nonneg, ?_⟩
  simp [runSilenceOps, silenceExit]

/-- Witness for C4: a silencing scope around a raising body entered at
depth 3 exits at depth 3, and a balanced enter/exit pair from depth 0 ends
non-negative. -/
theorem silence_depth_balanced_witness :
    (((3 : Int), true) : Int × Bool).1 = 3 ∧ (0 : Int) ≤ 0 :=
  ⟨silence_depth_balanced.1 (SProg.scope true SProg.fail) 3 ((3 : Int), true)
      (by decide),
   silence_depth_balanced.2.1 [SilenceOp.enter true, SilenceOp.exit true] 0
      (by decide) 0 (by decide)⟩

/-- C5: each resume shifts the reference instant forward by exactly the
just-elapsed paused interval, so the elapsed reading at any later instant
equals wall-clock time since start minus the sum of all paused intervals. -/
theorem suspendable_clock_elapsed :
    (∀ (td : TimeData) (p r : Int),
        (resumeShift td p r).start_time = td.start_time + (r - p))
    ∧ (∀ (t0 : Int) (ps : List (Int × Int)) (now : Int),
        elapsedAt (applySuspends ⟨t0⟩ ps) now
          = (now - t0) - (ps.map (fun pr => pr.2 - pr.1)).sum) := by
  constructor
  · intro td p r
    simp [resumeShift]
  · intro t0 ps now
    simp only [elapsedAt, applySuspends_start_time]
    ring

/-- C9: when no task registry is configured, `simple_task` behaves exactly
as `timed_activity` with the same activity name, element name and
`silent_nested` flag, yields no task handle, leaves the render state
untouched, and is not an error. -/
theorem simpleTask_without_state_is_timedActivity :
    ∀ (activity : String) (element full_name : Option String)
      (silent_nested : Bool) (displayLimit tStart tEnd : Int)
      (task : TaskInfo) (body : Outcome) (st : RenderState) (tSched : Int),
      simpleTaskRun false activity element full_name silent_nested
          displayLimit tStart tEnd task body st tSched
        = ((timedActivityRun activity element none silent_nested
              tStart tEnd body).1,
           (timedActivityRun activity element none silent_nested
              tStart tEnd body).2,
           none, st) := by
  intro activity element full_name silent_nested displayLimit tStart tEnd
    task body st tSched
  simp [simpleTaskRun]

/-- C10: entering a job-recording scope resets the handler's silence scope
depth to zero, so records emitted inside the new recording scope are not
silenced by silencing scopes entered before the recording began. -/
theorem recordedMessages_resets_silence_depth :
    ∀ (h : Handler) (filename logdir : String) (pid : Nat),
      h.log_handle = none → h.log_filename = none →
      ∃ h', recordedMessagesBegin h filename logdir pid = some h'
        ∧ h'.silence_scope_depth = 0 ∧ silentMessages h' = false := by
  intro h filename logdir pid hh hf
  obtain ⟨lh, lf, d⟩ := h
  simp only at hh hf
  subst hh
  subst hf
  exact ⟨_, rfl, rfl, rfl⟩

/-- Witness for C10: beginning a recording scope on a handler whose silence
depth is 7 yields a handler with depth 0 that silences nothing. -/
theorem recordedMessages_resets_silence_depth_witness :
    ∃ h', recordedMessagesBegin ⟨none, none, 7⟩ "build" "logs" 42 = some h'
      ∧ h'.silence_scope_depth = 0 ∧ silentMessages h' = false :=
  recordedMessages_resets_silence_depth ⟨none, none, 7⟩ "build" "logs" 42
    rfl rfl

/-- C1 counterexample: an execution of the job-recording scope whose body
raises exits with the log handle and log filename still set — the job
context is not cleared back to `None` on the exceptional exit path, so the
claim fails at this input. -/
theorem recordedMessages_context_not_cleared_on_error :
    recordedMessagesScope ⟨none, none, 0⟩ "build" "logs" 1 true
      = some (⟨some 0, some "logs/build.1.log", 0⟩, true, true)
    ∧ (⟨some 0, some "logs/build.1.log", 0⟩ : Handler).log_filename ≠ none
    ∧ (⟨some 0, some "logs/build.1.log", 0⟩ : Handler).log_handle ≠ none := by
  refine ⟨by decide, by simp, by simp⟩

/-- C1 (amended): on every exit path of the job-recording scope the opened
log file handle is closed; on normal completion the recorder's active job
context (`log_handle` and `log_filename`) is cleared back to `None`, so the
thread can later host another recording scope; on an exceptional exit the
context is not cleared. -/
theorem recordedMessages_closes_clears_on_normal_exit :
    ∀ (h : Handler) (filename logdir : String) (pid : Nat)
      (bodyRaises : Bool) (h' : Handler) (closed raised : Bool),
      recordedMessagesScope h filename logdir pid bodyRaises
        = some (h', closed, raised) →
      closed = true
      ∧ (raised = false →
          h'.log_handle = none ∧ h'.log_filename = none
          ∧ (recordedMessagesBegin h' filename logdir pid).isSome = true) := by
  intro h filename logdir pid bodyRaises h' closed raised hscope
  unfold recordedMessagesScope at hscope
  cases hb : recordedMessagesBegin h filename logdir pid with
  | none => rw [hb] at hscope; exact absurd hscope (by simp)
  | some h1 =>
      rw [hb] at hscope
      cases bodyRaises with
      | true =>
          simp at hscope
          obtain ⟨e1, e2, e3⟩ := hscope
          subst e3
          exact ⟨e2, fun hr => nomatch hr⟩
      | false =>
          simp at hscope
          obtain ⟨e1, e2, e3⟩ := hscope
          subst e1
          refine ⟨e2, fun _ => ⟨rfl, rfl, ?_⟩⟩
          simp [recordedMessagesBegin]

/-- Witness for C1 (amended): a normally-completing recording scope closes
the file and clears the context, and the thread can immediately begin a new
recording scope. -/
theorem recordedMessages_closes_clears_witness :
    true = true
    ∧ (false = false →
        (⟨none, none, 0⟩ : Handler).log_handle = none
        ∧ (⟨none, none, 0⟩ : Handler).log_filename = none
        ∧ (recordedMessagesBegin ⟨none, none, 0⟩ "build" "logs" 1).isSome
            = true) :=
  recordedMessages_closes_clears_on_normal_exit ⟨none, none, 0⟩ "build" "logs"
    1 false ⟨none, none, 0⟩ true false (by decide)

/-- C2: a timed activity whose body raises a recognized domain error emits
exactly one START and one FAIL record, the FAIL record carries the measured
elapsed time, no SUCCESS record is emitted, and the original error
propagates unmodified; a body raising an unrecognized error propagates it
without a FAIL record. -/
theorem timedActivity_error_semantics :
    ∀ (activity : String) (element detail : Option String)
      (silent_nested : Bool) (tStart tEnd : Int) (c : Nat),
      ((timedActivityRun activity element detail silent_nested tStart tEnd
          (.err (.bst c))).1.countP
          (fun m => decide (m.message_type = .start)) = 1)
      ∧ ((timedActivityRun activity element detail silent_nested tStart tEnd
          (.err (.bst c))).1.countP
          (fun m => decide (m.message_type = .fail)) = 1)
      ∧ ((timedActivityRun activity element detail silent_nested tStart tEnd
          (.err (.bst c))).1.countP
          (fun m => decide (m.message_type = .success)) = 0)
      ∧ ((timedActivityRun activity element detail silent_nested tStart tEnd
          (.err (.bst c))).1.all
          (fun m => !(decide (m.message_type = .fail))
            || decide (m.elapsed = some (tEnd - tStart))) = true)
      ∧ ((timedActivityRun activity element detail silent_nested tStart tEnd
          (.err (.bst c))).2 = .err (.bst c))
      ∧ ((timedActivityRun activity element detail silent_nested tStart tEnd
          (.err (.other c))).2 = .err (.other c))
      ∧ ((timedActivityRun activity element detail silent_nested tStart tEnd
          (.err (.other c))).1.countP
          (fun m => decide (m.message_type = .fail)) = 0) := by
  intro activity element detail silent_nested tStart tEnd c
  simp [timedActivityRun, List.countP_cons, List.countP_nil]

/-- C8: beginning a job-recording scope on a thread whose handler already
has an active job context — its log handle or its log filename is set — is
a fatal precondition violation. -/
theorem recordedMessages_reentry_fatal :
    ∀ (h : Handler) (filename logdir : String) (pid : Nat)
      (bodyRaises : Bool),
      h.log_handle ≠ none ∨ h.log_filename ≠ none →
      recordedMessagesBegin h filename logdir pid = none
      ∧ recordedMessagesScope h filename logdir pid bodyRaises = none := by
  intro h filename logdir pid bodyRaises hactive
  obtain ⟨lh, lf, d⟩ := h
  have hbeg : recordedMessagesBegin ⟨lh, lf, d⟩ filename logdir pid = none := by
    cases lh with
    | some x => rfl
    | none =>
        cases lf with
        | some y => rfl
        | none => simp at hactive
  exact ⟨hbeg, by simp [recordedMessagesScope, hbeg]⟩

/-- Witness for C8: a second begin on a handler with an open log is fatal. -/
theorem recordedMessages_reentry_fatal_witness :
    recordedMessagesBegin ⟨some 0, some "logs/build.1.log", 0⟩
        "build" "logs" 1 = none
    ∧ recordedMessagesScope ⟨some 0, some "logs/build.1.log", 0⟩
        "build" "logs" 1 false = none :=
  recordedMessages_reentry_fatal ⟨some 0, some "logs/build.1.log", 0⟩
    "build" "logs" 1 false (Or.inl (by simp))

/-- C6: for every record written to a job log, the line's timecode field is
`--:--:--` unless the record's kind is SUCCESS or FAIL, in which case it is
the elapsed duration formatted as zero-padded hours:minutes:seconds (an
elapsed of 5 seconds yields `00:00:05`); the kind is rendered upper-case
left-justified in a 7-wide field; the element name is included only when
present; any detail is appended after a blank line with each detail line
indented. -/
theorem recordLine_format :
    ∀ (m : Message) (e : Int),
      ((m.message_type = .success ∨ m.message_type = .fail) →
        m.elapsed = some e) →
      recordLine m = some (
          "[" ++ padJust (if m.message_type = .success ∨ m.message_type = .fail
                          then timecodeOf e else "--:--:--") 8
            ++ "] " ++ padJust (pyUpper m.message_type.value) 7
            ++ (if strTruthy m.element_name
                then " " ++ m.element_name.getD "" else "")
            ++ ": " ++ m.message
            ++ (match m.detail with
                | none => ""
                | some d => "\n\n" ++ detailBlock d))
      ∧ timecodeOf 5 = "00:00:05" := by
  intro m e he
  refine ⟨?_, by decide⟩
  by_cases hsf : m.message_type = .success ∨ m.message_type = .fail
  · have he' := he hsf
    simp only [recordLine, if_pos hsf, he', Option.map_some']
    by_cases hel : strTruthy m.element_name = true <;> simp [hel, EMPTYTIME]
  · simp only [recordLine, if_neg hsf, Option.map_some']
    by_cases hel : strTruthy m.element_name = true <;> simp [hel, EMPTYTIME]

/-- Witness for C6: the log line of a SUCCESS record with 5 elapsed seconds
and no element name or detail. -/
theorem recordLine_format_witness :
    recordLine ⟨.success, "build", none, some 5, none⟩ = some (
        "[" ++ padJust (if (⟨.success, "build", none, some 5, none⟩ :
                  Message).message_type = .success
                ∨ (⟨.success, "build", none, some 5, none⟩ :
                  Message).message_type = .fail
                then timecodeOf 5 else "--:--:--") 8
          ++ "] " ++ padJust (pyUpper (⟨.success, "build", none, some 5,
                none⟩ : Message).message_type.value) 7
          ++ (if strTruthy (⟨.success, "build", none, some 5, none⟩ :
                Message).element_name
              then " " ++ ((⟨.success, "build", none, some 5, none⟩ :
                Message).element_name.getD "") else "")
          ++ ": " ++ (⟨.success, "build", none, some 5, none⟩ :
                Message).message
          ++ (match (⟨.success, "build", none, some 5, none⟩ :
                Message).detail with
              | none => ""
              | some d => "\n\n" ++ detailBlock d))
    ∧ timecodeOf 5 = "00:00:05" :=
  recordLine_format ⟨.success, "build", none, some 5, none⟩ 5 (fun _ => rfl)

/-- C7: the render hook invokes the upstream callback exactly when one is
configured and the current instant has reached the shared deadline, after
which it reschedules the deadline to one second past the actual render
instant (so an immediate further update within the second does not fire);
a task entering when no deadline is pending schedules it one second ahead;
removing the last active task clears the deadline; and along every balanced
task program from the initial state, a state with zero active tasks has no
pending deadline. -/
theorem render_throttling :
    (∀ (st : RenderState) (cb : Bool) (now : Int) (st' : RenderState)
        (fired : Bool),
        renderStatus st cb now = some (st', fired) →
        (fired = true ↔ cb = true ∧ ∃ dl, st.next_render = some dl ∧ dl ≤ now)
        ∧ (fired = true → st'.next_render = some (now + RENDER_INTERVAL)))
    ∧ (∀ (st : RenderState) (cb : Bool) (now : Int) (st' : RenderState),
        renderStatus st cb now = some (st', true) →
        ∀ (cb' : Bool) (now' : Int), now' < now + RENDER_INTERVAL →
          renderStatus st' cb' now' = some (st', false))
    ∧ (∀ (st : RenderState) (now : Int), st.next_render = none →
        (taskEnter st now).next_render = some (now + RENDER_INTERVAL))
    ∧ (∀ st : RenderState, st.active_simple_tasks = 1 →
        (taskExit st).next_render = none)
    ∧ (∀ (p : TProg) (st' : RenderState),
        execTProg p initialRenderState = some st' →
        st'.active_simple_tasks = 0 ∧ st'.next_render = none) := by
  refine ⟨?_, ?_, ?_, ?_, ?_⟩
  · intro st cb now st' fired h
    cases hnr : st.next_render with
    | none => simp [renderStatus, hnr] at h
    | some dl =>
        simp only [renderStatus, hnr] at h
        by_cases hc : cb = true ∧ dl ≤ now
        · rw [if_pos hc] at h
          simp at h
          obtain ⟨e1, e2⟩ := h
          subst e2
          subst e1
          exact ⟨⟨fun _ => ⟨hc.1, dl, rfl, hc.2⟩, fun _ => rfl⟩,
                 fun _ => rfl⟩
        · rw [if_neg hc] at h
          simp at h
          obtain ⟨e1, e2⟩ := h
          subst e2
          subst e1
          refine ⟨Iff.intro (fun hf => nomatch hf) ?_, fun hf => nomatch hf⟩
          intro h2
          obtain ⟨hcb, dl', hdl', hle⟩ := h2
          simp at hdl'
          subst hdl'
          exact absurd ⟨hcb, hle⟩ hc
  · intro st cb now st' h cb' now' hlt
    cases hnr : st.next_render with
    | none => simp [renderStatus, hnr] at h
    | some dl =>
        simp only [renderStatus, hnr] at h
        by_cases hc : cb = true ∧ dl ≤ now
        · rw [if_pos hc] at h
          simp at h
          subst h
          have hcond : ¬(cb' = true ∧ now + RENDER_INTERVAL ≤ now') := by
            intro h2
            obtain ⟨_, habs⟩ := h2
            omega
          simp only [renderStatus]
          rw [if_neg hcond]
        · rw [if_neg hc] at h
          simp at h
  · intro st now hnr
    simp [taskEnter, hnr]
  · intro st h1
    simp [taskExit, h1]
  · intro p st' h
    obtain ⟨ha, hb, _⟩ :=
      execTProg_invariant p initialRenderState (by decide)
        (fun _ => rfl) st' h
    exact ⟨by simpa [initialRenderState] using ha,
           hb (by simp [initialRenderState])⟩

/-- Witness for C7: the first task entering from the initial state schedules
the render deadline one interval ahead. -/
theorem render_throttling_witness :
    (taskEnter initialRenderState 10).next_render
      = some (10 + RENDER_INTERVAL) :=
  render_throttling.2.2.1 initialRenderState 10 rfl

end Messenger

